import Mathlib

/-!
Verification of `ms_peak_picker/scan_filter.py`: the filter registry and the
`transform` pipeline over paired m/z and intensity arrays.

Arrays of floats are modelled as `List ℚ`.  NumPy array objects are references,
so the stateful behaviour of each filter (fresh allocation versus in-place
mutation) is modelled by a heap of arrays (`Heap`) addressed by indices, with a
value-level (pure) description of each filter alongside.

The two external numeric collaborators — `scipy.signal.savgol_filter` and
`ms_peak_picker.fticr_denoising.denoise` — are not part of the source file;
they are taken as parameters (`Externals`), with their documented contracts
(length preservation / paired output) as hypotheses where a theorem needs them.
-/

/-- Boolean-mask indexing, `array[mask]` for a boolean `mask` of the same
length: keep the entries at the positions where the mask is `true`. -/
def applyMask : List ℚ → List Bool → List ℚ
  | [], _ => []
  | _, [] => []
  | x :: xs, b :: bs => if b then x :: applyMask xs bs else applyMask xs bs

/-- NumPy `array.max()` on a non-empty array (junk value `0` on `[]`, where
NumPy raises; theorems that depend on the maximum assume non-emptiness). -/
def maxOf : List ℚ → ℚ
  | [] => 0
  | x :: xs => xs.foldl max x

/-- NumPy `array.min()` on a non-empty array (junk value `0` on `[]`). -/
def minOf : List ℚ → ℚ
  | [] => 0
  | x :: xs => xs.foldl min x

/-- NumPy `array.mean()`: sum divided by length (junk value `0` on `[]`,
where NumPy yields NaN; theorems assume non-emptiness). -/
def meanOf (l : List ℚ) : ℚ := l.sum / (l.length : ℚ)

/-- NumPy `np.median`: middle element of the sorted data for odd length, the
average of the two middle elements for even length. -/
def medianOf (l : List ℚ) : ℚ :=
  let s := l.mergeSort (fun a b => decide (a ≤ b))
  let n := l.length
  if n % 2 = 1 then s.getD (n / 2) 0
  else (s.getD (n / 2 - 1) 0 + s.getD (n / 2) 0) / 2

/-- NumPy `np.interp` at a single point, over the list of `(x, y)` knots
(`zip xp fp`): clamp below the first knot, linear inside each interval,
clamp above the last knot. -/
def interpPoint : List (ℚ × ℚ) → ℚ → ℚ
  | [], _ => 0
  | [(_, y1)], _ => y1
  | (x1, y1) :: (x2, y2) :: rest, x =>
    if x < x1 then y1
    else if x ≤ x2 then y1 + (x - x1) * (y2 - y1) / (x2 - x1)
    else interpPoint ((x2, y2) :: rest) x

/-- NumPy `np.arange(lo, stop, step)` for `step > 0`: the values
`lo + k * step` for `k < ⌈(stop - lo) / step⌉`. -/
def arange (lo stop step : ℚ) : List ℚ :=
  (List.range (Int.toNat ⌈(stop - lo) / step⌉)).map
    (fun k : ℕ => lo + (k : ℚ) * step)

/-- The two external numeric collaborators used by `scan_filter.py` but not
defined in it: `scipy.signal.savgol_filter` and
`ms_peak_picker.fticr_denoising.denoise`. -/
structure Externals where
  savgol : ℕ → ℕ → ℕ → List ℚ → List ℚ
  denoise : List ℚ → List ℚ → ℚ → ℚ → ℚ → List ℚ × List ℚ

/-- Trivial instantiation of the external collaborators, used to evaluate the
pipeline on concrete inputs. -/
def trivialExternals : Externals :=
  { savgol := fun _ _ _ l => l,
    denoise := fun mz i _ _ _ => (mz.take i.length, i.take mz.length) }

/-- `MedianIntensityFilter.filter`: zero every intensity strictly below the
median intensity (value level; the code writes into a fresh copy). -/
def MedianIntensityFilter.filter (mz_array intensity_array : List ℚ) :
    List ℚ × List ℚ :=
  let med := medianOf intensity_array
  (mz_array, intensity_array.map (fun x => if x < med then 0 else x))

/-- `MeanBelowMeanFilter.filter`: `mean` is the global mean,
`mean_below_mean` is the mean of the boolean array `intensity_array < mean`
(hence the fraction of points strictly below the mean), and every intensity
strictly below that fraction is zeroed (value level; the code writes into the
caller's array in place). -/
def MeanBelowMeanFilter.filter (mz_array intensity_array : List ℚ) :
    List ℚ × List ℚ :=
  let mean := meanOf intensity_array
  let mean_below_mean :=
    meanOf (intensity_array.map (fun x => if x < mean then 1 else 0))
  (mz_array, intensity_array.map (fun x => if x < mean_below_mean then 0 else x))

/-- `SavitskyGolayFilter.filter`: smooth the intensities with the external
`savgol_filter`, clip negatives to zero, and drop the points whose smoothed
intensity is not strictly positive from both arrays. -/
def SavitskyGolayFilter.filter (ext : Externals)
    (window_length polyorder deriv : ℕ) (mz_array intensity_array : List ℚ) :
    List ℚ × List ℚ :=
  let smoothed := (ext.savgol window_length polyorder deriv intensity_array).map
    (fun x => max x 0)
  let mask := smoothed.map (fun x => decide (0 < x))
  (applyMask mz_array mask, applyMask smoothed mask)

/-- `NPercentOfMaxFilter.filter`: zero every intensity whose ratio to the
global maximum is strictly below `p` (value level; the code writes into a
fresh copy).  `maxOf = 0` is degenerate (NumPy divides by zero). -/
def NPercentOfMaxFilter.filter (p : ℚ) (mz_array intensity_array : List ℚ) :
    List ℚ × List ℚ :=
  let m := maxOf intensity_array
  (mz_array, intensity_array.map (fun x => if x / m < p then 0 else x))

/-- `FTICRBaselineRemoval.filter`: pure parameter passthrough to the external
`denoise` collaborator. -/
def FTICRBaselineRemoval.filter (ext : Externals)
    (window_length region_width scale : ℚ) (mz_array intensity_array : List ℚ) :
    List ℚ × List ℚ :=
  ext.denoise mz_array intensity_array window_length region_width scale

/-- `LinearResampling.filter`: build the grid
`np.arange(min, max + spacing, spacing)` and linearly interpolate the
intensities onto it. -/
def LinearResampling.filter (spacing : ℚ) (mz_array intensity_array : List ℚ) :
    List ℚ × List ℚ :=
  let lo := minOf mz_array
  let hi := maxOf mz_array
  let new_mz := arange lo (hi + spacing) spacing
  (new_mz, new_mz.map (interpPoint (mz_array.zip intensity_array)))

/-- `ConstantThreshold.filter`: keep only the points whose intensity is
strictly greater than `constant`, in both arrays. -/
def ConstantThreshold.filter (constant : ℚ) (mz_array intensity_array : List ℚ) :
    List ℚ × List ℚ :=
  let mask := intensity_array.map (fun x => decide (constant < x))
  (applyMask mz_array mask, applyMask intensity_array mask)

/-- `MaximumScaler.filter`: if the global maximum exceeds `threshold`, divide
all intensities by the maximum and multiply by `threshold`; otherwise return
the pair unchanged. -/
def MaximumScaler.filter (threshold : ℚ) (mz_array intensity_array : List ℚ) :
    List ℚ × List ℚ :=
  if maxOf intensity_array > threshold then
    (mz_array,
      intensity_array.map (fun x => x / maxOf intensity_array * threshold))
  else
    (mz_array, intensity_array)

/-- A fully configured filter instance: one constructor per `FilterBase`
subclass of `scan_filter.py`, carrying its construction arguments. -/
inductive FilterInst
  | medianIntensity
  | meanBelowMean
  | savitskyGolay (window_length polyorder deriv : ℕ)
  | nPercentOfMax (p : ℚ)
  | fticrBaseline (window_length region_width scale : ℚ)
  | linearResampling (spacing : ℚ)
  | constantThreshold (constant : ℚ)
  | maximumScaler (threshold : ℚ)
deriving DecidableEq

/-- Value-level application of a filter instance: dispatch of
`FilterBase.__call__` to the variant's `filter` method. -/
def FilterInst.filter (ext : Externals) :
    FilterInst → List ℚ → List ℚ → List ℚ × List ℚ
  | .medianIntensity, mz, i => MedianIntensityFilter.filter mz i
  | .meanBelowMean, mz, i => MeanBelowMeanFilter.filter mz i
  | .savitskyGolay wl po dv, mz, i => SavitskyGolayFilter.filter ext wl po dv mz i
  | .nPercentOfMax p, mz, i => NPercentOfMaxFilter.filter p mz i
  | .fticrBaseline wl rw sc, mz, i => FTICRBaselineRemoval.filter ext wl rw sc mz i
  | .linearResampling s, mz, i => LinearResampling.filter s mz i
  | .constantThreshold c, mz, i => ConstantThreshold.filter c mz i
  | .maximumScaler t, mz, i => MaximumScaler.filter t mz i

/-- The global registry `filter_register`, as populated by the `@register`
decorations of `scan_filter.py`: each entry holds the instance constructed
from the registration arguments (defaults filled in from the constructors). -/
def filter_register : List (String × FilterInst) :=
  [("median", .medianIntensity),
   ("mean_below_mean", .meanBelowMean),
   ("savitsky_golay", .savitskyGolay 5 3 0),
   ("one_percent_of_max", .nPercentOfMax (1 / 100)),
   ("tenth_percent_of_max", .nPercentOfMax (1 / 1000)),
   ("fticr_baseline", .fticrBaseline 1 10 5),
   ("linear_resampling", .linearResampling (1 / 100)),
   ("over_10", .constantThreshold 10),
   ("over_100", .constantThreshold 100),
   ("extreme_scale_limiter", .maximumScaler 30000)]

/-- A caller-supplied filter reference: a registered name, or a filter
instance / callable used directly. -/
inductive FilterRef
  | byName (s : String)
  | inst (f : FilterInst)

/-- A heap of array objects: NumPy arrays are references, so each live array
is a slot and filters either allocate fresh slots or overwrite a slot in
place. -/
abbrev Heap := List (List ℚ)

/-- Stateful application of one filter instance: which result arrays are
freshly allocated and which slot is overwritten in place follows
`scan_filter.py` line by line.  Only `MeanBelowMeanFilter` assigns into the
caller's intensity array (`intensity_array[mask] = 0.` without copying);
`MedianIntensityFilter` and `NPercentOfMaxFilter` copy first
(`np.array(intensity_array)`); the remaining variants build fresh arrays (or,
for `MaximumScaler` under its threshold, return the inputs untouched). -/
def FilterInst.filterEff (ext : Externals) (f : FilterInst) (mzId intId : ℕ)
    (h : Heap) : ℕ × ℕ × Heap :=
  let mz := h.getD mzId []
  let i := h.getD intId []
  match f with
  | .medianIntensity =>
      (mzId, h.length, h ++ [(MedianIntensityFilter.filter mz i).2])
  | .meanBelowMean =>
      (mzId, intId, h.set intId (MeanBelowMeanFilter.filter mz i).2)
  | .savitskyGolay wl po dv =>
      let r := SavitskyGolayFilter.filter ext wl po dv mz i
      (h.length, h.length + 1, h ++ [r.1, r.2])
  | .nPercentOfMax p =>
      (mzId, h.length, h ++ [(NPercentOfMaxFilter.filter p mz i).2])
  | .fticrBaseline wl rw sc =>
      let r := FTICRBaselineRemoval.filter ext wl rw sc mz i
      (h.length, h.length + 1, h ++ [r.1, r.2])
  | .linearResampling s =>
      let r := LinearResampling.filter s mz i
      (h.length, h.length + 1, h ++ [r.1, r.2])
  | .constantThreshold c =>
      let r := ConstantThreshold.filter c mz i
      (h.length, h.length + 1, h ++ [r.1, r.2])
  | .maximumScaler t =>
      if maxOf i > t then
        (mzId, h.length, h ++ [i.map (fun x => x / maxOf i * t)])
      else (mzId, intId, h)

/-- The loop of `transform` over the heap: resolve each reference (a string is
looked up in `filter_register`; an unknown name raises `KeyError`, carried
here together with the heap as it stands when the error is raised) and apply
it to the current pair. -/
def transformEff (ext : Externals) :
    List FilterRef → ℕ → ℕ → Heap → Except (String × Heap) (ℕ × ℕ × Heap)
  | [], mzId, intId, h => .ok (mzId, intId, h)
  | .byName s :: rest, mzId, intId, h =>
    match filter_register.lookup s with
    | none => .error (s, h)
    | some f =>
        let r := FilterInst.filterEff ext f mzId intId h
        transformEff ext rest r.1 r.2.1 r.2.2
  | .inst f :: rest, mzId, intId, h =>
    let r := FilterInst.filterEff ext f mzId intId h
    transformEff ext rest r.1 r.2.1 r.2.2

/-- `transform(mz_array, intensity_array, filters=None)`: run the pipeline on
a two-slot heap holding the caller's arrays and read the final values back
(`filters=None` means no filters). -/
def transform (ext : Externals) (mz_array intensity_array : List ℚ)
    (filters : Option (List FilterRef)) : Except String (List ℚ × List ℚ) :=
  match transformEff ext (filters.getD []) 0 1 [mz_array, intensity_array] with
  | .error (s, _) => .error s
  | .ok (m, i, h) => .ok (h.getD m [], h.getD i [])

/-! Helper lemmas about heap access. -/

theorem heap_getD_append {h : Heap} (l : Heap) {j : ℕ} (hj : j < h.length) :
    (h ++ l).getD j [] = h.getD j [] :=
  List.getD_append h l [] j hj

theorem heap_getD_append_right {h : Heap} (l : Heap) (k : ℕ) :
    (h ++ l).getD (h.length + k) [] = l.getD k [] := by
  simp [List.getD_eq_getElem?_getD, List.getElem?_append_right (Nat.le_add_right _ _)]

theorem heap_getD_set_self {h : Heap} {j : ℕ} (v : List ℚ) (hj : j < h.length) :
    (h.set j v).getD j [] = v := by
  simp [List.getD_eq_getElem?_getD, List.getElem?_set_self hj]

theorem heap_getD_set_ne {h : Heap} {j k : ℕ} (v : List ℚ) (hne : k ≠ j) :
    (h.set j v).getD k [] = h.getD k [] := by
  simp [List.getD_eq_getElem?_getD, List.getElem?_set_ne (Ne.symm hne)]

/-! Helper lemmas about boolean-mask indexing. -/

theorem applyMask_length_congr :
    ∀ (xs ys : List ℚ) (m : List Bool), xs.length = ys.length →
      (applyMask xs m).length = (applyMask ys m).length
  | [], [], _, _ => rfl
  | [], _ :: _, _, h => by simp at h
  | _ :: _, [], _, h => by simp at h
  | _ :: _, _ :: _, [], _ => rfl
  | x :: xs, y :: ys, b :: m, h => by
    have ih := applyMask_length_congr xs ys m (by simpa using h)
    cases b <;> simp [applyMask, ih]

theorem applyMask_map_eq_filter_zip (p : ℚ → Bool) :
    ∀ (xs ys : List ℚ), xs.length = ys.length →
      (applyMask xs (ys.map p), applyMask ys (ys.map p)) =
        ((xs.zip ys).filter (fun q => p q.2)).unzip
  | [], [], _ => rfl
  | [], _ :: _, h => by simp at h
  | _ :: _, [], h => by simp at h
  | x :: xs, y :: ys, h => by
    have ih := applyMask_map_eq_filter_zip p xs ys (by simpa using h)
    have ih1 : applyMask xs (ys.map p) = ((xs.zip ys).filter (fun q => p q.2)).unzip.1 := by
      simpa using congrArg Prod.fst ih
    have ih2 : applyMask ys (ys.map p) = ((xs.zip ys).filter (fun q => p q.2)).unzip.2 := by
      simpa using congrArg Prod.snd ih
    cases hpy : p y <;>
      simp [applyMask, hpy, List.filter_cons, List.unzip_cons, List.unzip_eq_map,
        ih1, ih2]

/-! Helper lemmas about `maxOf` and `minOf`. -/

theorem le_foldl_max (xs : List ℚ) (a : ℚ) : a ≤ xs.foldl max a := by
  induction xs generalizing a with
  | nil => exact le_refl a
  | cons x xs ih => exact le_trans (le_max_left a x) (ih (max a x))

theorem mem_le_foldl_max {x : ℚ} :
    ∀ (xs : List ℚ) (a : ℚ), x ∈ xs → x ≤ xs.foldl max a
  | [], _, hx => absurd hx (List.not_mem_nil x)
  | y :: ys, a, hx => by
    rcases List.mem_cons.1 hx with rfl | hx
    · exact le_trans (le_max_right a x) (le_foldl_max ys (max a x))
    · exact mem_le_foldl_max ys (max a y) hx

theorem foldl_max_le {b : ℚ} :
    ∀ (xs : List ℚ) (a : ℚ), a ≤ b → (∀ x ∈ xs, x ≤ b) → xs.foldl max a ≤ b
  | [], _, ha, _ => ha
  | y :: ys, a, ha, hb => by
    refine foldl_max_le ys (max a y) (max_le ha (hb y (List.mem_cons_self y ys))) ?_
    exact fun x hx => hb x (List.mem_cons_of_mem y hx)

theorem le_maxOf {l : List ℚ} {x : ℚ} (hx : x ∈ l) : x ≤ maxOf l := by
  cases l with
  | nil => exact absurd hx (List.not_mem_nil x)
  | cons y ys =>
    rcases List.mem_cons.1 hx with rfl | hx
    · exact le_foldl_max ys x
    · exact mem_le_foldl_max ys y hx

theorem maxOf_le {l : List ℚ} {b : ℚ} (hne : l ≠ []) (hb : ∀ x ∈ l, x ≤ b) :
    maxOf l ≤ b := by
  cases l with
  | nil => exact absurd rfl hne
  | cons y ys =>
    exact foldl_max_le ys y (hb y (List.mem_cons_self y ys))
      (fun x hx => hb x (List.mem_cons_of_mem y hx))

theorem foldl_min_le (xs : List ℚ) (a : ℚ) : xs.foldl min a ≤ a := by
  induction xs generalizing a with
  | nil => exact le_refl a
  | cons x xs ih => exact le_trans (ih (min a x)) (min_le_left a x)

theorem foldl_min_le_mem {x : ℚ} :
    ∀ (xs : List ℚ) (a : ℚ), x ∈ xs → xs.foldl min a ≤ x
  | [], _, hx => absurd hx (List.not_mem_nil x)
  | y :: ys, a, hx => by
    rcases List.mem_cons.1 hx with rfl | hx
    · exact le_trans (foldl_min_le ys (min a x)) (min_le_right a x)
    · exact foldl_min_le_mem ys (min a y) hx

theorem minOf_le {l : List ℚ} {x : ℚ} (hx : x ∈ l) : minOf l ≤ x := by
  cases l with
  | nil => exact absurd hx (List.not_mem_nil x)
  | cons y ys =>
    rcases List.mem_cons.1 hx with rfl | hx
    · exact foldl_min_le ys x
    · exact foldl_min_le_mem ys y hx

theorem minOf_lt_maxOf {l : List ℚ} {a b : ℚ} (ha : a ∈ l) (hb : b ∈ l)
    (hab : a ≠ b) : minOf l < maxOf l := by
  rcases lt_or_le (minOf l) (maxOf l) with hlt | hle
  · exact hlt
  · exact absurd (le_antisymm (le_trans (le_maxOf ha) (hle.trans (minOf_le hb)))
      (le_trans (le_maxOf hb) (hle.trans (minOf_le ha)))) hab

/-! Helper lemma: the sum of a 0/1 indicator list is the count of hits. -/

theorem sum_indicator_eq_count (p : ℚ → Bool) :
    ∀ l : List ℚ,
      (l.map (fun x => if p x then (1 : ℚ) else 0)).sum =
        ((l.filter p).length : ℚ)
  | [] => by simp
  | x :: xs => by
    have ih := sum_indicator_eq_count p xs
    by_cases hp : p x <;> simp [List.filter_cons, hp, ih] <;> ring

/-! Contracts of the external collaborators, and the correspondence between
the stateful and the value-level application of a filter. -/

/-- Contract of the external smoothing primitive (`scipy.signal.savgol_filter`):
it is a pointwise transformation, so its output has the input's length. -/
def SavgolLengthContract (ext : Externals) : Prop :=
  ∀ wl po dv (l : List ℚ), (ext.savgol wl po dv l).length = l.length

/-- Contract of the external baseline-removal collaborator (`denoise`):
it returns a measurement pair, i.e. two arrays of equal length. -/
def DenoisePairContract (ext : Externals) : Prop :=
  ∀ mz i wl rw sc,
    (ext.denoise mz i wl rw sc).1.length = (ext.denoise mz i wl rw sc).2.length

theorem trivialExternals_savgol : SavgolLengthContract trivialExternals :=
  fun _ _ _ _ => rfl

theorem trivialExternals_denoise : DenoisePairContract trivialExternals := by
  intro mz i wl rw sc
  simp [trivialExternals]
  omega

theorem FilterInst.filter_len (ext : Externals) (hsav : SavgolLengthContract ext)
    (hden : DenoisePairContract ext) (f : FilterInst) (mz i : List ℚ)
    (hlen : mz.length = i.length) :
    (FilterInst.filter ext f mz i).1.length =
      (FilterInst.filter ext f mz i).2.length := by
  cases f with
  | medianIntensity =>
    simpa [FilterInst.filter, MedianIntensityFilter.filter] using hlen
  | meanBelowMean =>
    simpa [FilterInst.filter, MeanBelowMeanFilter.filter] using hlen
  | savitskyGolay wl po dv =>
    have h1 : mz.length =
        ((ext.savgol wl po dv i).map (fun x => max x 0)).length := by
      simp [hsav wl po dv i, hlen]
    simpa [FilterInst.filter, SavitskyGolayFilter.filter] using
      applyMask_length_congr mz _ _ h1
  | nPercentOfMax p =>
    simpa [FilterInst.filter, NPercentOfMaxFilter.filter] using hlen
  | fticrBaseline wl rw sc =>
    simpa [FilterInst.filter, FTICRBaselineRemoval.filter] using hden mz i wl rw sc
  | linearResampling s =>
    simp [FilterInst.filter, LinearResampling.filter]
  | constantThreshold c =>
    simpa [FilterInst.filter, ConstantThreshold.filter] using
      applyMask_length_congr mz i _ hlen
  | maximumScaler t =>
    simp only [FilterInst.filter, MaximumScaler.filter]
    split <;> simp [hlen]

theorem heap_getD_append_one (h : Heap) (v : List ℚ) :
    (h ++ [v]).getD h.length [] = v := by
  simpa using heap_getD_append_right (h := h) [v] 0

theorem heap_getD_append_two_fst (h : Heap) (a b : List ℚ) :
    (h ++ [a, b]).getD h.length [] = a := by
  simpa using heap_getD_append_right (h := h) [a, b] 0

theorem heap_getD_append_two_snd (h : Heap) (a b : List ℚ) :
    (h ++ [a, b]).getD (h.length + 1) [] = b := by
  simpa using heap_getD_append_right (h := h) [a, b] 1


theorem FilterInst.filterEff_vals (ext : Externals) (f : FilterInst)
    (mzId intId : ℕ) (h : Heap) (hm : mzId < h.length) (hi : intId < h.length)
    (hne : mzId ≠ intId) :
    (FilterInst.filterEff ext f mzId intId h).1 <
        (FilterInst.filterEff ext f mzId intId h).2.2.length ∧
    (FilterInst.filterEff ext f mzId intId h).2.1 <
        (FilterInst.filterEff ext f mzId intId h).2.2.length ∧
    (FilterInst.filterEff ext f mzId intId h).1 ≠
        (FilterInst.filterEff ext f mzId intId h).2.1 ∧
    ((FilterInst.filterEff ext f mzId intId h).2.2.getD
        (FilterInst.filterEff ext f mzId intId h).1 [],
      (FilterInst.filterEff ext f mzId intId h).2.2.getD
        (FilterInst.filterEff ext f mzId intId h).2.1 []) =
      FilterInst.filter ext f (h.getD mzId []) (h.getD intId []) := by
  cases f with
  | medianIntensity =>
    simp only [FilterInst.filterEff]
    refine ⟨by simp; omega, by simp, Nat.ne_of_lt hm, ?_⟩
    rw [heap_getD_append _ hm, heap_getD_append_one]
    rfl
  | meanBelowMean =>
    simp only [FilterInst.filterEff]
    refine ⟨by simpa using hm, by simpa using hi, hne, ?_⟩
    rw [heap_getD_set_ne _ hne, heap_getD_set_self _ hi]
    rfl
  | savitskyGolay wl po dv =>
    simp only [FilterInst.filterEff]
    refine ⟨by simp, by simp, by omega, ?_⟩
    rw [heap_getD_append_two_fst, heap_getD_append_two_snd]
    rfl
  | nPercentOfMax p =>
    simp only [FilterInst.filterEff]
    refine ⟨by simp; omega, by simp, Nat.ne_of_lt hm, ?_⟩
    rw [heap_getD_append _ hm, heap_getD_append_one]
    rfl
  | fticrBaseline wl rw sc =>
    simp only [FilterInst.filterEff]
    refine ⟨by simp, by simp, by omega, ?_⟩
    rw [heap_getD_append_two_fst, heap_getD_append_two_snd]
    rfl
  | linearResampling s =>
    simp only [FilterInst.filterEff]
    refine ⟨by simp, by simp, by omega, ?_⟩
    rw [heap_getD_append_two_fst, heap_getD_append_two_snd]
    rfl
  | constantThreshold c =>
    simp only [FilterInst.filterEff]
    refine ⟨by simp, by simp, by omega, ?_⟩
    rw [heap_getD_append_two_fst, heap_getD_append_two_snd]
    rfl
  | maximumScaler t =>
    simp only [FilterInst.filterEff]
    by_cases hmax : maxOf (h.getD intId []) > t
    · simp only [if_pos hmax]
      refine ⟨by simp; omega, by simp, Nat.ne_of_lt hm, ?_⟩
      rw [heap_getD_append _ hm, heap_getD_append_one]
      simp only [FilterInst.filter, MaximumScaler.filter, if_pos hmax]
    · simp only [if_neg hmax]
      exact ⟨hm, hi, hne,
        by simp only [FilterInst.filter, MaximumScaler.filter, if_neg hmax]⟩

/-- Per-variant preconditions of a filter (spec: non-empty where required,
plus the measurement-pair invariant `len(mz) = len(intensity)` on input). -/
def filterPre (f : FilterInst) (mz i : List ℚ) : Prop :=
  mz.length = i.length ∧
  match f with
  | .medianIntensity => i ≠ []
  | .meanBelowMean => i ≠ []
  | .nPercentOfMax _ => i ≠ []
  | .maximumScaler _ => i ≠ []
  | .linearResampling _ => mz ≠ []
  | _ => True

theorem transformEff_ok_len (ext : Externals) (hsav : SavgolLengthContract ext)
    (hden : DenoisePairContract ext) (refs : List FilterRef) :
    ∀ (mzId intId : ℕ) (h : Heap) (m j : ℕ) (h2 : Heap),
      mzId < h.length → intId < h.length → mzId ≠ intId →
      (h.getD mzId []).length = (h.getD intId []).length →
      transformEff ext refs mzId intId h = .ok (m, j, h2) →
      (h2.getD m []).length = (h2.getD j []).length := by
  induction refs with
  | nil =>
    intro mzId intId h m j h2 _ _ _ hlen heq
    simp only [transformEff, Except.ok.injEq] at heq
    obtain ⟨rfl, rfl, rfl⟩ := Prod.mk.injEq .. ▸ heq
    exact hlen
  | cons r rest ih =>
    intro mzId intId h m j h2 hm hi hne hlen heq
    have step : ∀ f : FilterInst,
        transformEff ext rest (FilterInst.filterEff ext f mzId intId h).1
          (FilterInst.filterEff ext f mzId intId h).2.1
          (FilterInst.filterEff ext f mzId intId h).2.2 = .ok (m, j, h2) →
        (h2.getD m []).length = (h2.getD j []).length := by
      intro f heq2
      obtain ⟨v1, v2, v3, v4⟩ := FilterInst.filterEff_vals ext f mzId intId h hm hi hne
      have e1 := congrArg Prod.fst v4
      have e2 := congrArg Prod.snd v4
      simp only at e1 e2
      refine ih _ _ _ m j h2 v1 v2 v3 ?_ heq2
      rw [e1, e2]
      exact FilterInst.filter_len ext hsav hden f _ _ hlen
    cases r with
    | byName s =>
      cases hs : filter_register.lookup s with
      | none =>
        simp only [transformEff, hs] at heq
        exact Except.noConfusion heq
      | some f =>
        simp only [transformEff, hs] at heq
        exact step f heq
    | inst f =>
      simp only [transformEff] at heq
      exact step f heq

/-- C2: for every filter variant, under the variant's preconditions, the two
output arrays have equal length; consequently `transform` preserves the
equal-length correspondence of the measurement pair at every stage boundary
(stated for the final output of an arbitrary pipeline, hence for every prefix
of one). -/
theorem filter_length_invariant (ext : Externals)
    (hsav : SavgolLengthContract ext) (hden : DenoisePairContract ext) :
    (∀ f mz i, filterPre f mz i →
      (FilterInst.filter ext f mz i).1.length =
        (FilterInst.filter ext f mz i).2.length) ∧
    (∀ (filters : Option (List FilterRef)) (mz i : List ℚ) out,
      mz.length = i.length → transform ext mz i filters = .ok out →
      out.1.length = out.2.length) := by
  constructor
  · intro f mz i hpre
    exact FilterInst.filter_len ext hsav hden f mz i hpre.1
  · intro filters mz i out hlen heq
    rw [transform] at heq
    cases htr : transformEff ext (filters.getD []) 0 1 [mz, i] with
    | error e => rw [htr] at heq; cases heq
    | ok v =>
      obtain ⟨m, j, h2⟩ := v
      rw [htr] at heq
      have := transformEff_ok_len ext hsav hden (filters.getD []) 0 1 [mz, i]
        m j h2 (by simp) (by simp) (by omega) hlen htr
      obtain rfl : out = (h2.getD m [], h2.getD j []) := by
        cases heq; rfl
      exact this

/-- Closed witness for C2: the constant-threshold variant on the spec's
example input, and the corresponding one-stage pipeline. -/
theorem filter_length_invariant_witness :
    (FilterInst.filter trivialExternals (.constantThreshold 10)
        [1, 2, 3, 4, 5] [1, 1, 50, 1, 1]).1.length =
      (FilterInst.filter trivialExternals (.constantThreshold 10)
        [1, 2, 3, 4, 5] [1, 1, 50, 1, 1]).2.length :=
  (filter_length_invariant trivialExternals trivialExternals_savgol
    trivialExternals_denoise).1 (.constantThreshold 10) _ _ ⟨rfl, trivial⟩

/-- C3: `transform` with `filters=None` and with an empty filter list returns
the input arrays unchanged. -/
theorem transform_identity (ext : Externals) (mz i : List ℚ) :
    transform ext mz i none = .ok (mz, i) ∧
    transform ext mz i (some []) = .ok (mz, i) :=
  ⟨rfl, rfl⟩

/-- C1: resolving a registered name through `transform` applies exactly the
instance the registry stores for that name, so the output equals applying the
directly constructed instance (same type, same configuration arguments). -/
theorem registry_resolution_equivalence (ext : Externals) (mz i : List ℚ)
    (name : String) (f : FilterInst)
    (hf : filter_register.lookup name = some f) :
    transform ext mz i (some [.byName name]) =
      .ok (FilterInst.filter ext f mz i) := by
  obtain ⟨v1, v2, v3, v4⟩ :=
    FilterInst.filterEff_vals ext f 0 1 [mz, i] (by simp) (by simp) (by omega)
  rw [transform]
  simp only [Option.getD_some, transformEff, hf]
  have v4x : ((FilterInst.filterEff ext f 0 1 [mz, i]).2.2.getD
      (FilterInst.filterEff ext f 0 1 [mz, i]).1 [],
    (FilterInst.filterEff ext f 0 1 [mz, i]).2.2.getD
      (FilterInst.filterEff ext f 0 1 [mz, i]).2.1 []) =
      FilterInst.filter ext f mz i := v4
  exact congrArg Except.ok v4x

/-- Closed witness for C1: the registered name `"over_10"` resolves to the
`ConstantThreshold` instance with constant `10`, and the one-stage pipeline
run agrees with direct application. -/
theorem registry_resolution_equivalence_witness :
    transform trivialExternals [1, 2, 3, 4, 5] [1, 1, 50, 1, 1]
        (some [.byName "over_10"]) =
      .ok (FilterInst.filter trivialExternals (.constantThreshold 10)
        [1, 2, 3, 4, 5] [1, 1, 50, 1, 1]) :=
  registry_resolution_equivalence trivialExternals _ _ "over_10"
    (.constantThreshold 10) (by decide)

/-- A filter reference that `transform` can resolve: a registered name, or a
directly supplied instance. -/
def resolvesRef : FilterRef → Prop
  | .byName s => (filter_register.lookup s).isSome = true
  | .inst _ => True

/-- C4 (amended): when every reference before an unregistered name resolves,
`transform`'s loop raises the unknown-filter error (`KeyError`) exactly when
that name is reached: the preceding stages have run (their heap is the heap at
raise time), nothing after the unknown reference runs (the result does not
depend on it), and when the unknown name comes first the heap — hence the
caller's arrays — is untouched. -/
theorem unknown_filter_first_error (ext : Externals) (pre post : List FilterRef)
    (s : String) (mzId intId : ℕ) (h : Heap)
    (hres : ∀ r ∈ pre, resolvesRef r)
    (hs : filter_register.lookup s = none) :
    ∃ m j h1, transformEff ext pre mzId intId h = .ok (m, j, h1) ∧
      transformEff ext (pre ++ FilterRef.byName s :: post) mzId intId h =
        .error (s, h1) ∧
      (pre = [] → h1 = h) := by
  induction pre generalizing mzId intId h with
  | nil =>
    exact ⟨mzId, intId, h, rfl, by simp only [List.nil_append, transformEff, hs],
      fun _ => rfl⟩
  | cons r rest ih =>
    have hr := hres r (List.mem_cons_self r rest)
    have hrest : ∀ x ∈ rest, resolvesRef x :=
      fun x hx => hres x (List.mem_cons_of_mem r hx)
    cases r with
    | byName n =>
      obtain ⟨f, hf⟩ := Option.isSome_iff_exists.1 hr
      obtain ⟨m, j, h1, e1, e2, _⟩ :=
        ih (FilterInst.filterEff ext f mzId intId h).1
          (FilterInst.filterEff ext f mzId intId h).2.1
          (FilterInst.filterEff ext f mzId intId h).2.2 hrest
      refine ⟨m, j, h1, ?_, ?_, fun hcon => List.noConfusion hcon⟩
      · simp only [transformEff, hf]
        exact e1
      · simp only [List.cons_append, transformEff, hf]
        exact e2
    | inst f =>
      obtain ⟨m, j, h1, e1, e2, _⟩ :=
        ih (FilterInst.filterEff ext f mzId intId h).1
          (FilterInst.filterEff ext f mzId intId h).2.1
          (FilterInst.filterEff ext f mzId intId h).2.2 hrest
      refine ⟨m, j, h1, ?_, ?_, fun hcon => List.noConfusion hcon⟩
      · simp only [transformEff]
        exact e1
      · simp only [List.cons_append, transformEff]
        exact e2

/-- Closed witness for C4's amended statement: the unknown name first in the
list, on a concrete heap, which is returned untouched with the error. -/
theorem unknown_filter_first_error_witness :
    ∃ m j h1, transformEff trivialExternals [] 0 1 [[(1 : ℚ), 2], [3, 4]] =
        .ok (m, j, h1) ∧
      transformEff trivialExternals
          ([] ++ FilterRef.byName "does_not_exist" :: []) 0 1
          [[(1 : ℚ), 2], [3, 4]] =
        .error ("does_not_exist", h1) ∧
      (([] : List FilterRef) = [] → h1 = [[(1 : ℚ), 2], [3, 4]]) :=
  unknown_filter_first_error trivialExternals [] [] "does_not_exist" 0 1
    [[(1 : ℚ), 2], [3, 4]] (fun r hr => absurd hr (List.not_mem_nil r))
    (by decide)

/-- Counterexample to C4 as stated: with the filter list
`["mean_below_mean", "does_not_exist"]`, `transform`'s loop raises the
unknown-filter error for `"does_not_exist"`, but the caller's intensity array
(heap slot 1) has already been mutated in place by the first stage — from
`[1/10, 5, 1/10]` to `[0, 5, 0]` — before the error is raised. -/
theorem unknown_filter_error_counterexample :
    transformEff trivialExternals
        [FilterRef.byName "mean_below_mean", FilterRef.byName "does_not_exist"]
        0 1 [[1, 2, 3], [1 / 10, 5, 1 / 10]] =
      .error ("does_not_exist", [[1, 2, 3], [0, 5, 0]]) ∧
    ([[(1 : ℚ), 2, 3], [0, 5, 0]] : Heap) ≠ [[1, 2, 3], [1 / 10, 5, 1 / 10]] ∧
    filter_register.lookup "does_not_exist" = none ∧
    filter_register.lookup "mean_below_mean" = some .meanBelowMean := by
  have h1 : filter_register.lookup "mean_below_mean" =
      some FilterInst.meanBelowMean := by decide
  have h2 : filter_register.lookup "does_not_exist" =
      (none : Option FilterInst) := by decide
  have hmb : MeanBelowMeanFilter.filter [1, 2, 3] [1 / 10, 5, 1 / 10] =
      ([1, 2, 3], [0, 5, 0]) := by
    simp only [MeanBelowMeanFilter.filter, meanOf]
    norm_num
  refine ⟨?_, by norm_num, h2, h1⟩
  simp only [transformEff, h1, h2, FilterInst.filterEff]
  simpa using congrArg Prod.snd hmb

/-- Characterization of the constant-threshold filter: boolean-mask indexing
with the mask `intensity > c` equals filtering the zipped point list on the
intensity component. -/
theorem constantThreshold_eq_filter_zip (c : ℚ) (mz i : List ℚ)
    (hlen : mz.length = i.length) :
    ConstantThreshold.filter c mz i =
      ((mz.zip i).filter (fun q => decide (c < q.2))).unzip := by
  simpa [ConstantThreshold.filter] using
    applyMask_map_eq_filter_zip (fun x => decide (c < x)) mz i hlen

/-- C5: the constant-threshold filter returns exactly the subsequence of
points whose intensity is strictly greater than `c` — both arrays shrink in
lockstep (the filtered zip), each is a sublist (order preserved) of its input,
every surviving intensity exceeds `c`; the spec's example gives `([3], [50])`
and the empty input is a no-op. -/
theorem constant_threshold_spec (c : ℚ) (mz i : List ℚ)
    (hlen : mz.length = i.length) :
    ConstantThreshold.filter c mz i =
      ((mz.zip i).filter (fun q => decide (c < q.2))).unzip ∧
    (ConstantThreshold.filter c mz i).1.Sublist mz ∧
    (ConstantThreshold.filter c mz i).2.Sublist i ∧
    (∀ y ∈ (ConstantThreshold.filter c mz i).2, c < y) ∧
    ConstantThreshold.filter 10 [1, 2, 3, 4, 5] [1, 1, 50, 1, 1] = ([3], [50]) ∧
    ConstantThreshold.filter c [] [] = ([], []) := by
  have key := constantThreshold_eq_filter_zip c mz i hlen
  refine ⟨key, ?_, ?_, ?_, by decide, rfl⟩
  · rw [key, List.unzip_fst]
    have hsub := List.Sublist.map Prod.fst
      (List.filter_sublist (p := fun q => decide (c < q.2)) (mz.zip i))
    rwa [List.map_fst_zip mz i hlen.le] at hsub
  · rw [key, List.unzip_snd]
    have hsub := List.Sublist.map Prod.snd
      (List.filter_sublist (p := fun q => decide (c < q.2)) (mz.zip i))
    rwa [List.map_snd_zip mz i hlen.ge] at hsub
  · rw [key, List.unzip_snd]
    intro y hy
    obtain ⟨q, hq, rfl⟩ := List.mem_map.1 hy
    simpa using (List.mem_filter.1 hq).2

/-- Closed witness for C5: the spec's example input. -/
theorem constant_threshold_spec_witness :
    ConstantThreshold.filter 10 [1, 2, 3, 4, 5] [1, 1, 50, 1, 1] = ([3], [50]) :=
  (constant_threshold_spec 10 [1, 2, 3, 4, 5] [1, 1, 50, 1, 1] rfl).2.2.2.2.1

/-- C6: the constant-threshold filter is idempotent — applying it to its own
output removes nothing further. -/
theorem constant_threshold_idempotent (c : ℚ) (mz i : List ℚ)
    (hlen : mz.length = i.length) :
    ConstantThreshold.filter c (ConstantThreshold.filter c mz i).1
      (ConstantThreshold.filter c mz i).2 = ConstantThreshold.filter c mz i := by
  have key := constantThreshold_eq_filter_zip c mz i hlen
  rw [key]
  have hul : (((mz.zip i).filter (fun q => decide (c < q.2))).unzip.1).length =
      (((mz.zip i).filter (fun q => decide (c < q.2))).unzip.2).length := by
    simp [List.unzip_fst, List.unzip_snd]
  rw [constantThreshold_eq_filter_zip c _ _ hul, List.zip_unzip]
  congr 1
  exact List.filter_eq_self.2 (fun a ha => (List.mem_filter.1 ha).2)

/-- Closed witness for C6: idempotence at the spec's example input. -/
theorem constant_threshold_idempotent_witness :
    ConstantThreshold.filter 10
        (ConstantThreshold.filter 10 [1, 2, 3, 4, 5] [1, 1, 50, 1, 1]).1
        (ConstantThreshold.filter 10 [1, 2, 3, 4, 5] [1, 1, 50, 1, 1]).2 =
      ConstantThreshold.filter 10 [1, 2, 3, 4, 5] [1, 1, 50, 1, 1] :=
  constant_threshold_idempotent 10 [1, 2, 3, 4, 5] [1, 1, 50, 1, 1] rfl

/-- C7: for a non-empty input and a (validly configured, non-negative)
threshold `t`: when the maximum exceeds `t` every intensity is scaled by
`t / max` (the code computes `x / max * t`), the output maximum does not
exceed `t`, and no non-negative intensity is scaled up; when the maximum is
at most `t` — in particular when it is `0`, so no division happens — the
input is returned exactly; the spec's example scales `[10,20,30,40,1000]`
with threshold `100` to `[1,2,3,4,100]`. -/
theorem maximum_scaler_spec (t : ℚ) (mz i : List ℚ) (hne : i ≠ [])
    (ht : 0 ≤ t) :
    (maxOf i > t →
      MaximumScaler.filter t mz i = (mz, i.map (fun x => x / maxOf i * t)) ∧
      maxOf (MaximumScaler.filter t mz i).2 ≤ t ∧
      (∀ x ∈ i, 0 ≤ x → x / maxOf i * t ≤ x)) ∧
    (maxOf i ≤ t → MaximumScaler.filter t mz i = (mz, i)) ∧
    (maxOf i = 0 → MaximumScaler.filter t mz i = (mz, i)) ∧
    MaximumScaler.filter 100 [1, 2, 3, 4, 5] [10, 20, 30, 40, 1000] =
      ([1, 2, 3, 4, 5], [1, 2, 3, 4, 100]) := by
  refine ⟨?_, ?_, ?_, ?_⟩
  · intro hmax
    have heq : MaximumScaler.filter t mz i =
        (mz, i.map (fun x => x / maxOf i * t)) := by
      simp [MaximumScaler.filter, hmax]
    have hMpos : 0 < maxOf i := lt_of_le_of_lt ht hmax
    refine ⟨heq, ?_, ?_⟩
    · rw [heq]
      refine maxOf_le (by simpa using hne) ?_
      intro y hy
      obtain ⟨x, hx, rfl⟩ := List.mem_map.1 hy
      have hx1 : x / maxOf i ≤ 1 := (div_le_one hMpos).2 (le_maxOf hx)
      calc x / maxOf i * t ≤ 1 * t := mul_le_mul_of_nonneg_right hx1 ht
        _ = t := one_mul t
    · intro x hx hx0
      have h1 : x / maxOf i * t = x * (t / maxOf i) := by ring
      have h2 : t / maxOf i ≤ 1 := (div_le_one hMpos).2 (le_of_lt hmax)
      rw [h1]
      calc x * (t / maxOf i) ≤ x * 1 := mul_le_mul_of_nonneg_left h2 hx0
        _ = x := mul_one x
  · intro hle
    simp [MaximumScaler.filter, not_lt.2 hle]
  · intro h0
    have : ¬ maxOf i > t := by rw [h0]; exact not_lt.2 ht
    simp [MaximumScaler.filter, this]
  · have hm : maxOf [10, 20, 30, 40, 1000] = (1000 : ℚ) := by
      norm_num [maxOf, max_def]
    simp only [MaximumScaler.filter, hm]
    norm_num

/-- Closed witness for C7: the spec's example input with threshold `100`. -/
theorem maximum_scaler_spec_witness :
    MaximumScaler.filter 100 [1, 2, 3, 4, 5] [10, 20, 30, 40, 1000] =
      ([1, 2, 3, 4, 5], [1, 2, 3, 4, 100]) :=
  (maximum_scaler_spec 100 [1, 2, 3, 4, 5] [10, 20, 30, 40, 1000]
    (by simp) (by norm_num)).2.2.2

theorem arange_length (lo stop step : ℚ) :
    (arange lo stop step).length = (⌈(stop - lo) / step⌉).toNat := by
  rw [arange, List.length_map, List.length_range]

theorem arange_getD (lo stop step : ℚ) (k : ℕ)
    (hk : k < (arange lo stop step).length) :
    (arange lo stop step).getD k 0 = lo + (k : ℚ) * step := by
  have hk2 : k < Int.toNat ⌈(stop - lo) / step⌉ := by
    rw [arange_length] at hk
    exact hk
  have h1 : (arange lo stop step)[k]? = some (lo + (k : ℚ) * step) := by
    rw [arange, List.getElem?_map, List.getElem?_range hk2]
    rfl
  rw [List.getD_eq_getElem?_getD, h1]
  rfl

/-- C8: with spacing `Δ > 0` and at least two distinct coordinates, the
resampled coordinates are `np.arange(min, max + Δ, Δ)` — an arithmetic
sequence `min + k·Δ` of length ≥ 2 — whose last element reaches at least
`max(coordinates)` while staying below `max(coordinates) + Δ`, and the
intensities are the piecewise-linear interpolation of the input pair onto
that grid. -/
theorem linear_resampling_grid (spacing : ℚ) (mz i : List ℚ)
    (hs : 0 < spacing) (hd : ∃ a ∈ mz, ∃ b ∈ mz, a ≠ b) :
    (LinearResampling.filter spacing mz i).1 =
      arange (minOf mz) (maxOf mz + spacing) spacing ∧
    (LinearResampling.filter spacing mz i).2 =
      (LinearResampling.filter spacing mz i).1.map (interpPoint (mz.zip i)) ∧
    2 ≤ (LinearResampling.filter spacing mz i).1.length ∧
    (∀ k, k < (LinearResampling.filter spacing mz i).1.length →
      (LinearResampling.filter spacing mz i).1.getD k 0 =
        minOf mz + (k : ℚ) * spacing) ∧
    maxOf mz ≤ (LinearResampling.filter spacing mz i).1.getD
      ((LinearResampling.filter spacing mz i).1.length - 1) 0 ∧
    (LinearResampling.filter spacing mz i).1.getD
      ((LinearResampling.filter spacing mz i).1.length - 1) 0 <
      maxOf mz + spacing := by
  obtain ⟨a, ha, b, hb, hab⟩ := hd
  have hlt : minOf mz < maxOf mz := minOf_lt_maxOf ha hb hab
  have hgrid : (LinearResampling.filter spacing mz i).1 =
      arange (minOf mz) (maxOf mz + spacing) spacing := rfl
  set lo := minOf mz with hlo
  set hi := maxOf mz with hhi
  set q : ℚ := (hi + spacing - lo) / spacing with hq
  have hq1 : 1 < q := by
    rw [hq, lt_div_iff hs]
    linarith
  have hceil2 : 2 ≤ ⌈q⌉ := by
    have hle := Int.le_ceil q
    have h1 : (1 : ℚ) < (⌈q⌉ : ℚ) := lt_of_lt_of_le hq1 hle
    have h2 : (1 : ℤ) < ⌈q⌉ := by exact_mod_cast h1
    omega
  have hlen : (arange lo (hi + spacing) spacing).length = (⌈q⌉).toNat := by
    rw [arange_length, hq]
  have hlen2 : 2 ≤ (arange lo (hi + spacing) spacing).length := by
    rw [hlen]; omega
  have hQ : ((⌈q⌉.toNat : ℕ) : ℚ) = (⌈q⌉ : ℚ) := by
    exact_mod_cast Int.toNat_of_nonneg (by omega)
  have hn1 : (arange lo (hi + spacing) spacing).length - 1 <
      (arange lo (hi + spacing) spacing).length := by omega
  have hgd := arange_getD lo (hi + spacing) spacing _ hn1
  have hcast : (((arange lo (hi + spacing) spacing).length - 1 : ℕ) : ℚ) =
      (⌈q⌉ : ℚ) - 1 := by
    rw [hlen, Nat.cast_sub (by omega)]
    rw [hQ]
    norm_num
  have hlast : (arange lo (hi + spacing) spacing).getD
      ((arange lo (hi + spacing) spacing).length - 1) 0 =
      lo + ((⌈q⌉ : ℚ) - 1) * spacing := by
    rw [hgd, hcast]
  have hle := Int.le_ceil q
  have hmul : hi + spacing - lo ≤ (⌈q⌉ : ℚ) * spacing := by
    have := (div_le_iff hs).1 (hq ▸ hle)
    linarith
  have hlt1 : (⌈q⌉ : ℚ) < q + 1 := Int.ceil_lt_add_one q
  have hq_mul : q * spacing = hi + spacing - lo := by
    rw [hq]
    exact div_mul_cancel₀ _ (ne_of_gt hs)
  refine ⟨hgrid, rfl, ?_, ?_, ?_, ?_⟩
  · rw [hgrid]; exact hlen2
  · intro k hk
    exact arange_getD lo (hi + spacing) spacing k hk
  · rw [hgrid, hlast]
    linarith
  · rw [hgrid, hlast]
    have hstep : ((⌈q⌉ : ℚ) - 1) * spacing < q * spacing :=
      mul_lt_mul_of_pos_right (by linarith) hs
    linarith [hq_mul ▸ hstep]

/-- Closed witness for C8: resampling `[1, 2, 3]` with spacing `1/2`. -/
theorem linear_resampling_grid_witness :
    (LinearResampling.filter (1 / 2) [1, 2, 3] [0, 10, 0]).1 =
      arange (minOf [1, 2, 3]) (maxOf [(1 : ℚ), 2, 3] + 1 / 2) (1 / 2) :=
  (linear_resampling_grid (1 / 2) [1, 2, 3] [0, 10, 0] (by norm_num)
    ⟨1, List.mem_cons_self .., 2, List.mem_cons_of_mem _ (List.mem_cons_self ..),
      by norm_num⟩).1

/-- Fraction of the points whose intensity lies strictly below the mean: the
count of such points over the total count, the statistic the spec says the
code computes (and then misuses as an absolute threshold). -/
def fractionBelowMean (i : List ℚ) : ℚ :=
  ((i.filter (fun x => decide (x < meanOf i))).length : ℚ) / (i.length : ℚ)

/-- C9: on a non-empty (non-constant) input the mean-below-mean filter
computes the global mean `m`, then the fraction `f ∈ [0, 1]` of points
strictly below `m` (the mean of the boolean comparison array), and zeroes
every intensity strictly below `f`, using the fraction itself as an absolute
intensity threshold; the coordinates and the length are unchanged. -/
theorem mean_below_mean_spec (mz i : List ℚ) (hne : i ≠ [])
    (hnc : ∃ a ∈ i, ∃ b ∈ i, a ≠ b) :
    MeanBelowMeanFilter.filter mz i =
      (mz, i.map (fun x => if x < fractionBelowMean i then 0 else x)) ∧
    0 ≤ fractionBelowMean i ∧ fractionBelowMean i ≤ 1 ∧
    (MeanBelowMeanFilter.filter mz i).1 = mz ∧
    (MeanBelowMeanFilter.filter mz i).2.length = i.length := by
  have hkey : meanOf (i.map (fun x => if x < meanOf i then 1 else 0)) =
      fractionBelowMean i := by
    have hs := sum_indicator_eq_count (fun x => decide (x < meanOf i)) i
    simp only [decide_eq_true_eq] at hs
    rw [meanOf, List.length_map, hs, fractionBelowMean]
  have hlen0 : (0 : ℚ) < (i.length : ℚ) := by
    exact_mod_cast List.length_pos.2 hne
  refine ⟨?_, ?_, ?_, rfl, by simp [MeanBelowMeanFilter.filter]⟩
  · simp only [MeanBelowMeanFilter.filter]
    rw [hkey]
  · rw [fractionBelowMean]
    exact div_nonneg (by positivity) (by positivity)
  · rw [fractionBelowMean, div_le_one hlen0]
    exact_mod_cast List.length_filter_le _ i

/-- Closed witness for C9: a non-constant input. -/
theorem mean_below_mean_spec_witness :
    MeanBelowMeanFilter.filter [1, 2, 3] [1, 9, 1] =
      ([1, 2, 3], ([1, 9, 1] : List ℚ).map
        (fun x => if x < fractionBelowMean [1, 9, 1] then 0 else x)) :=
  (mean_below_mean_spec [1, 2, 3] [1, 9, 1] (by simp)
    ⟨1, List.mem_cons_self .., 9,
      List.mem_cons_of_mem _ (List.mem_cons_self ..), by norm_num⟩).1

/-- C10: aliasing discipline.  The mean-below-mean stage writes its zeroed
values into the caller's intensity slot in place (same slot returned, its
content replaced, all other slots untouched); the median and the
p-fraction-of-max stages return a fresh slot and leave every pre-existing
slot — in particular the caller's arrays — unchanged.  Consequently a
one-stage `"mean_below_mean"` pipeline overwrites the caller's intensity
array (slot 1 becomes `[0, 5, 0]`, no longer `[1/10, 5, 1/10]`), while a
one-stage `"median"` pipeline returns a fresh slot and leaves slot 1 intact. -/
theorem mutation_discipline (ext : Externals) (mzId intId : ℕ) (h : Heap)
    (p : ℚ) :
    (intId < h.length →
      (FilterInst.filterEff ext .meanBelowMean mzId intId h).2.1 = intId ∧
      (FilterInst.filterEff ext .meanBelowMean mzId intId h).2.2.length =
        h.length ∧
      (FilterInst.filterEff ext .meanBelowMean mzId intId h).2.2.getD intId [] =
        (MeanBelowMeanFilter.filter (h.getD mzId []) (h.getD intId [])).2 ∧
      (∀ j, j ≠ intId →
        (FilterInst.filterEff ext .meanBelowMean mzId intId h).2.2.getD j [] =
          h.getD j [])) ∧
    ((FilterInst.filterEff ext .medianIntensity mzId intId h).2.1 = h.length ∧
      (∀ j, j < h.length →
        (FilterInst.filterEff ext .medianIntensity mzId intId h).2.2.getD j [] =
          h.getD j []) ∧
      (FilterInst.filterEff ext .medianIntensity mzId intId h).2.2.getD
          h.length [] =
        (MedianIntensityFilter.filter (h.getD mzId []) (h.getD intId [])).2) ∧
    ((FilterInst.filterEff ext (.nPercentOfMax p) mzId intId h).2.1 =
        h.length ∧
      (∀ j, j < h.length →
        (FilterInst.filterEff ext (.nPercentOfMax p) mzId intId h).2.2.getD
            j [] = h.getD j []) ∧
      (FilterInst.filterEff ext (.nPercentOfMax p) mzId intId h).2.2.getD
          h.length [] =
        (NPercentOfMaxFilter.filter p (h.getD mzId []) (h.getD intId [])).2) ∧
    (transformEff trivialExternals [FilterRef.byName "mean_below_mean"] 0 1
        [[1, 2, 3], [1 / 10, 5, 1 / 10]] =
      .ok (0, 1, [[1, 2, 3], [0, 5, 0]])) ∧
    (transformEff trivialExternals [FilterRef.byName "median"] 0 1
        [[1, 2, 3], [1 / 10, 5, 1 / 10]] =
      .ok (0, 2, [[1, 2, 3], [1 / 10, 5, 1 / 10],
        (MedianIntensityFilter.filter [1, 2, 3] [1 / 10, 5, 1 / 10]).2])) ∧
    ([(0 : ℚ), 5, 0] ≠ [1 / 10, 5, 1 / 10]) := by
  refine ⟨?_, ?_, ?_, ?_, ?_, by norm_num⟩
  · intro hi
    simp only [FilterInst.filterEff]
    refine ⟨trivial, by simp, heap_getD_set_self _ hi,
      fun j hj => heap_getD_set_ne _ hj⟩
  · simp only [FilterInst.filterEff]
    exact ⟨trivial, fun j hj => heap_getD_append _ hj, heap_getD_append_one h _⟩
  · simp only [FilterInst.filterEff]
    exact ⟨trivial, fun j hj => heap_getD_append _ hj, heap_getD_append_one h _⟩
  · have h1 : filter_register.lookup "mean_below_mean" =
        some FilterInst.meanBelowMean := by decide
    have hmb : MeanBelowMeanFilter.filter [1, 2, 3] [1 / 10, 5, 1 / 10] =
        ([1, 2, 3], [0, 5, 0]) := by
      simp only [MeanBelowMeanFilter.filter, meanOf]
      norm_num
    simp only [transformEff, h1, FilterInst.filterEff]
    simpa using congrArg Prod.snd hmb
  · have h1 : filter_register.lookup "median" =
        some FilterInst.medianIntensity := by decide
    simp only [transformEff, h1, FilterInst.filterEff]
    simp
